import Mathlib

/-!
Verification of the CortexM persistent-storage and page-cache subsystem
(`src/Libs/PageCacheClass.hpp`, `src/Libs/PersistentStorage.hpp`).

Modelling conventions (shallow embedding):
* Machine integers (`ADDRESS_TYPE`, `unsigned int`, `LENGTH_TYPE`) are modelled
  as `Nat`; the device address space is assumed not to overflow the machine
  word, which is the regime all the specified behaviour lives in.
* `PAGE_SIZE` is a parameter `P`.  The C++ alignment idiom
  `address & ~((ADDRESS_TYPE)PAGE_SIZE-1)` assumes a power-of-two page size,
  where it coincides with rounding down to a multiple of `P`; we model it as
  `address - address % P` (`pageBase`).
* The backing device (`virtual Read/Write/Compare/CalculateCRC`) is an
  abstract parameter: a state type `δ` together with the primitive
  operations, each of which may fail (`Option`).  Concrete "ideal" devices
  backed by a byte map `Nat → Nat` instantiate it for concrete runs.
* Each cache operation returns its success flag, the updated cache state,
  the updated device state and a trace of the device/callback calls it made,
  mirroring the C++ methods (which return `bool` and mutate members).
* The C++ `do { ... } while(len > 0)` loops of `SetData`/`GetData` are
  modelled with explicit fuel (structural recursion); `len + 1` units of
  fuel are always sufficient for a positive page size, which the theorems
  establish as part of proving the loops succeed.
-/

namespace CortexM

namespace Cache

/-- Model of `PageCacheClass::StatusEnum`. -/
inductive StatusEnum where
  | Empty
  | HasData
  | Dirty
deriving DecidableEq, Repr

/-- The mutable members of `PageCacheClass`: `m_Address`, `m_Status`,
`m_Buffer` (the buffer is a byte map; only indices `< PAGE_SIZE` are
meaningful). -/
structure CacheState where
  addr : Nat
  status : StatusEnum
  buf : Nat → Nat

/-- Model of `PreFlushCallbackStruct`: the function pointer may itself be null
(`fnPresent = false`); `arg` is the opaque `void *arg` token. -/
structure PreFlushCallback where
  fnPresent : Bool
  arg : Nat

/-- Trace events: calls to the backing `Read`/`Write` primitives and
invocations of the pre-flush callback (with the argument values passed at
the call site `callback->Callback(m_Buffer, m_Address, sizeof(m_Buffer),
callback->arg)`). -/
inductive Ev where
  | readE (address len : Nat)
  | writeE (data : Nat → Nat) (address len : Nat)
  | cbE (buf : Nat → Nat) (address len arg : Nat)

/-- Recognizes backing-read events. -/
def Ev.isRead : Ev → Bool
  | .readE _ _ => true
  | _ => false

/-- The abstract backing device: `virtual Read` / `virtual Write` of
`PageCacheClass`.  `read dev address len` yields the bytes (indexed from 0)
or fails; `write dev data address len` yields the new device state or
fails. -/
structure Dev (δ : Type) where
  read : δ → Nat → Nat → Option (Nat → Nat)
  write : δ → (Nat → Nat) → Nat → Nat → Option δ

/-- Result of a cache operation: success flag, result value, cache state,
device state, trace of device/callback calls. -/
structure Out (δ : Type) (α : Type) where
  ok : Bool
  val : α
  st : CacheState
  dev : δ
  tr : List Ev

/-- Model of `address & ~((ADDRESS_TYPE)PAGE_SIZE-1)`: page-aligned base of an
address (power-of-two page size). -/
def pageBase (P address : Nat) : Nat := address - address % P

/-- A `memcpy`-style splice: overwrite `dst` on `[off, off+len)` with
`src 0, src 1, ...`. -/
def blit (dst : Nat → Nat) (off : Nat) (src : Nat → Nat) (len : Nat) : Nat → Nat :=
  fun i => if off ≤ i ∧ i < off + len then src (i - off) else dst i

/-- Model of `PageCacheClass::isInCache`. -/
def isInCache (P : Nat) (st : CacheState) (address : Nat) : Bool :=
  decide (st.status ≠ StatusEnum.Empty ∧ st.addr = pageBase P address)

/-- Model of `PageCacheClass::Clear`: `m_Status = StatusEnum::Empty`. -/
def Clear (st : CacheState) : CacheState := { st with status := StatusEnum.Empty }

/-- The callback invocation trace of a dirty flush: one event when the
struct and its function pointer are both present, none otherwise. -/
def cbTrace (P : Nat) (st : CacheState) (cb : Option PreFlushCallback) :
    List Ev :=
  match cb with
  | some c => if c.fnPresent then [Ev.cbE st.buf st.addr P c.arg] else []
  | none => []

/-- Model of `PageCacheClass::Flush`.  When dirty: invoke the callback (if the struct
and its function pointer are present), then `Write(m_Buffer, m_Address,
sizeof(m_Buffer))`; on success `Clear()`.  Otherwise do nothing. -/
def Flush {δ : Type} (P : Nat) (D : Dev δ) (st : CacheState) (dev : δ)
    (cb : Option PreFlushCallback) : Out δ Unit :=
  if st.status = StatusEnum.Dirty then
    match D.write dev st.buf st.addr P with
    | none => ⟨false, (), st, dev, cbTrace P st cb ++ [Ev.writeE st.buf st.addr P]⟩
    | some dev' =>
        ⟨true, (), Clear st, dev', cbTrace P st cb ++ [Ev.writeE st.buf st.addr P]⟩
  else ⟨true, (), st, dev, []⟩

/-- Model of `PageCacheClass::setAddress`: flush first when dirty on a different
page, then set `m_Address` to the page base. -/
def setAddress {δ : Type} (P : Nat) (D : Dev δ) (st : CacheState) (dev : δ)
    (address : Nat) (cb : Option PreFlushCallback) : Out δ Unit :=
  if st.status = StatusEnum.Dirty ∧ isInCache P st address = false then
    if (Flush P D st dev cb).ok then
      ⟨true, (), { (Flush P D st dev cb).st with addr := pageBase P address },
        (Flush P D st dev cb).dev, (Flush P D st dev cb).tr⟩
    else ⟨false, (), (Flush P D st dev cb).st, (Flush P D st dev cb).dev,
      (Flush P D st dev cb).tr⟩
  else ⟨true, (), { st with addr := pageBase P address }, dev, []⟩

/-- The tail of a `SetData` iteration (`PageCacheClass.hpp` lines
132-142): compute `restPageSize`/`pageDataLen`, `memcpy` the request bytes
into the buffer at the in-page offset, read-fill the unaligned piece at the
end of the page when the slot was empty and the copied span stops short of
the page end, and mark the slot dirty.  `tr0` is the trace accumulated so
far; the result value is `pageDataLen` (0 on failure). -/
def setDataTail {δ : Type} (P : Nat) (D : Dev δ) (st2 : CacheState) (dev : δ)
    (data : Nat → Nat) (address len : Nat) (tr0 : List Ev) : Out δ Nat :=
  if st2.status = StatusEnum.Empty ∧
      min (P - address % P) len < P - address % P then
    match D.read dev (st2.addr + address % P + min (P - address % P) len)
        (P - address % P - min (P - address % P) len) with
    | none =>
        ⟨false, 0,
          { st2 with
              buf := blit st2.buf (address % P) data (min (P - address % P) len) },
          dev,
          tr0 ++ [Ev.readE (st2.addr + address % P + min (P - address % P) len)
            (P - address % P - min (P - address % P) len)]⟩
    | some g =>
        ⟨true, min (P - address % P) len,
          ⟨st2.addr, StatusEnum.Dirty,
            blit (blit st2.buf (address % P) data (min (P - address % P) len))
              (address % P + min (P - address % P) len) g
              (P - address % P - min (P - address % P) len)⟩,
          dev,
          tr0 ++ [Ev.readE (st2.addr + address % P + min (P - address % P) len)
            (P - address % P - min (P - address % P) len)]⟩
  else
    ⟨true, min (P - address % P) len,
      { st2 with
          status := StatusEnum.Dirty,
          buf := blit st2.buf (address % P) data (min (P - address % P) len) },
      dev, tr0⟩

/-- The head of a `SetData` iteration after `setAddress` (`PageCacheClass.hpp`
lines 129-131): read-fill the unaligned piece at the beginning of the page
when the slot is empty and the request does not start at the page border,
then continue with `setDataTail`. -/
def setDataHead {δ : Type} (P : Nat) (D : Dev δ) (st1 : CacheState) (dev : δ)
    (data : Nat → Nat) (address len : Nat) (tr0 : List Ev) : Out δ Nat :=
  if st1.status = StatusEnum.Empty ∧ st1.addr ≠ address then
    match D.read dev st1.addr (address % P) with
    | none => ⟨false, 0, st1, dev, tr0 ++ [Ev.readE st1.addr (address % P)]⟩
    | some f =>
        setDataTail P D { st1 with buf := blit st1.buf 0 f (address % P) } dev
          data address len (tr0 ++ [Ev.readE st1.addr (address % P)])
  else setDataTail P D st1 dev data address len tr0

/-- One iteration of the `do`-loop body of `PageCacheClass::SetData`.
The result value is the number of bytes consumed from the request
(`pageDataLen`, or `PAGE_SIZE` in the aligned full-page branch; 0 on
failure). -/
def setDataStep {δ : Type} (P : Nat) (D : Dev δ) (st : CacheState) (dev : δ)
    (data : Nat → Nat) (address len : Nat) (cb : Option PreFlushCallback) :
    Out δ Nat :=
  if address % P = 0 ∧ P ≤ len then
    -- data is entire page: just write data, keep the cache buffer unchanged
    match D.write dev data address P with
    | none => ⟨false, 0, st, dev, [Ev.writeE data address P]⟩
    | some dev' => ⟨true, P, st, dev', [Ev.writeE data address P]⟩
  else
    -- data is page unaligned: use cache buffer
    if (setAddress P D st dev address cb).ok = false then
      ⟨false, 0, (setAddress P D st dev address cb).st,
        (setAddress P D st dev address cb).dev,
        (setAddress P D st dev address cb).tr⟩
    else
      setDataHead P D (setAddress P D st dev address cb).st
        (setAddress P D st dev address cb).dev data address len
        (setAddress P D st dev address cb).tr

/-- The `do { ... } while(len > 0)` loop of `PageCacheClass::SetData`,
with explicit fuel. -/
def SetDataAux {δ : Type} (P : Nat) (D : Dev δ) :
    Nat → CacheState → δ → (Nat → Nat) → Nat → Nat →
    Option PreFlushCallback → Out δ Unit
  | 0, st, dev, _, _, _, _ => ⟨false, (), st, dev, []⟩
  | fuel + 1, st, dev, data, address, len, cb =>
      let s := setDataStep P D st dev data address len cb
      if s.ok = false then ⟨false, (), s.st, s.dev, s.tr⟩
      else if len - s.val = 0 then ⟨true, (), s.st, s.dev, s.tr⟩
      else
        let r := SetDataAux P D fuel s.st s.dev (fun i => data (i + s.val))
          (address + s.val) (len - s.val) cb
        ⟨r.ok, (), r.st, r.dev, s.tr ++ r.tr⟩

/-- Model of `PageCacheClass::SetData`. -/
def SetData {δ : Type} (P : Nat) (D : Dev δ) (st : CacheState) (dev : δ)
    (data : Nat → Nat) (address len : Nat) (cb : Option PreFlushCallback) :
    Out δ Unit :=
  SetDataAux P D (len + 1) st dev data address len cb

/-- The `do { ... } while(len > 0)` loop of `PageCacheClass::GetData`,
with explicit fuel; the result value is the list of bytes copied to the
caller's buffer, in order. -/
def GetDataAux {δ : Type} (P : Nat) (D : Dev δ) :
    Nat → CacheState → δ → Nat → Nat → Out δ (List Nat)
  | 0, st, dev, _, _ => ⟨false, [], st, dev, []⟩
  | fuel + 1, st, dev, address, len =>
      let restPageSize := P - address % P
      let pageDataLen := min restPageSize len
      if isInCache P st address then
        let seg := (List.range pageDataLen).map (fun i => st.buf (address % P + i))
        if len - pageDataLen = 0 then ⟨true, seg, st, dev, []⟩
        else
          let r := GetDataAux P D fuel st dev (address + pageDataLen)
            (len - pageDataLen)
          ⟨r.ok, seg ++ r.val, r.st, r.dev, r.tr⟩
      else
        match D.read dev address pageDataLen with
        | none => ⟨false, [], st, dev, [Ev.readE address pageDataLen]⟩
        | some f =>
            let seg := (List.range pageDataLen).map f
            if len - pageDataLen = 0 then
              ⟨true, seg, st, dev, [Ev.readE address pageDataLen]⟩
            else
              let r := GetDataAux P D fuel st dev (address + pageDataLen)
                (len - pageDataLen)
              ⟨r.ok, seg ++ r.val, r.st, r.dev, Ev.readE address pageDataLen :: r.tr⟩

/-- Model of `PageCacheClass::GetData`. -/
def GetData {δ : Type} (P : Nat) (D : Dev δ) (st : CacheState) (dev : δ)
    (address len : Nat) : Out δ (List Nat) :=
  GetDataAux P D (len + 1) st dev address len

/-- The ideal backing device: a plain byte map on which every read and
every write succeeds. -/
def memDev : Dev (Nat → Nat) where
  read := fun m address _len => some (fun i => m (address + i))
  write := fun m data address len =>
    some (fun x => if address ≤ x ∧ x < address + len then data (x - address) else m x)

/-- The byte the cache/device composite presents at address `x`: the cache
buffer when `x`'s page is resident, the backing byte otherwise. -/
def view (P : Nat) (st : CacheState) (m : Nat → Nat) (x : Nat) : Nat :=
  if isInCache P st x then st.buf (x % P) else m x

/-- Loop invariant of `SetData` (relative to the current request address):
the slot is empty, or it is dirty on a page-aligned address strictly before
the page of the remaining request. -/
def Inv (P : Nat) (st : CacheState) (address : Nat) : Prop :=
  st.status = StatusEnum.Empty ∨
    (st.status = StatusEnum.Dirty ∧ st.addr % P = 0 ∧ st.addr + P ≤ address)

end Cache

namespace Storage

/-- Value of `System::PersistentStorage::StorageUUID` (the single-region magic). -/
def StorageUUID : List Nat :=
  [0xB0, 0x24, 0xF2, 0xDC, 0x72, 0xEA, 0x11, 0xE8,
   0x85, 0x8E, 0x2C, 0xFD, 0xA1, 0xE1, 0xCE, 0xF5]

/-- Value of `System::PersistentStorage::PageStorageUUID` (the page-chain magic). -/
def PageStorageUUID : List Nat :=
  [0xD2, 0x3C, 0x3B, 0x7A, 0x75, 0xF9, 0x11, 0xE8,
   0x81, 0x90, 0x2C, 0xFD, 0xA1, 0xE1, 0xCE, 0xF5]

/-- The abstract storage device: `virtual Compare` / `virtual Read` /
`virtual CalculateCRC` of `StorageReaderClass` (and the analogous
primitives of `PageStorageClass`).  `compare dev pat address len` compares
`len` device bytes at `address` against the pattern; `read` yields `len`
bytes or fails; `crc` is the device's CRC primitive. -/
structure SDev (σ : Type) where
  compare : σ → List Nat → Nat → Nat → Bool
  read : σ → Nat → Nat → Option (List Nat)
  crc : σ → Nat → Nat → Nat

/-- Little-endian reinterpretation of raw bytes as a scalar, as the packed
struct field reads do on a Cortex-M (little-endian) target. -/
def decodeLE (bs : List Nat) : Nat := bs.foldr (fun b acc => b + 256 * acc) 0

/-- Value of `offsetof(StorageHeaderStruct, Length)`: two packed 16-byte UUIDs
precede it. -/
def lengthOff : Nat := 32

/-- Value of `offsetof(StorageHeaderStruct, StorageCrc)` for `sizeof(ADDRESS_TYPE) = W`. -/
def crcOff (W : Nat) : Nat := 32 + W

/-- Value of `sizeof(StorageHeaderStruct)` for field widths `W` (`ADDRESS_TYPE`) and
`C` (`CRC_TYPE`). -/
def headerSize (W C : Nat) : Nat := 32 + W + C

/-- Model of `StorageReaderClass::getLength`: read the `Length` header field. -/
def getLength {σ : Type} (D : SDev σ) (W : Nat) (dev : σ) (address : Nat) :
    Option Nat :=
  (D.read dev (address + lengthOff) W).map decodeLE

/-- Model of `StorageReaderClass::getCrc`: read the `StorageCrc` header field. -/
def getCrc {σ : Type} (D : SDev σ) (W C : Nat) (dev : σ) (address : Nat) :
    Option Nat :=
  (D.read dev (address + crcOff W) C).map decodeLE

/-- Model of `StorageReaderClass::StorageCheckEnum`. -/
inductive StorageCheckEnum where
  | Ok
  | NoStorage
  | AnotherStorage
  | DeviceError
  | StorageError
deriving DecidableEq, Repr

/-- The mutable member of `StorageReaderClass`: `m_Address`. -/
structure ReaderState where
  addr : Nat
deriving DecidableEq, Repr

/-- Model of `StorageReaderClass::IsStorageCorrect`. -/
def IsStorageCorrect {σ : Type} (D : SDev σ) (W C : Nat) (r : ReaderState)
    (dev : σ) (address : Nat) (uuid : List Nat) :
    StorageCheckEnum × ReaderState :=
  if ¬ D.compare dev StorageUUID address 16 then
    (StorageCheckEnum.NoStorage, r)
  else if ¬ D.compare dev uuid (address + 16) 16 then
    (StorageCheckEnum.AnotherStorage, r)
  else
    match getLength D W dev address with
    | none => (StorageCheckEnum.DeviceError, r)
    | some len =>
        match getCrc D W C dev address with
        | none => (StorageCheckEnum.DeviceError, r)
        | some crc =>
            if crc = D.crc dev (address + headerSize W C) len then
              (StorageCheckEnum.Ok, ⟨address⟩)
            else (StorageCheckEnum.StorageError, r)

/-- Model of `StorageReaderClass::GetData` exactly as written: after the bound
check it performs `Read(data, m_Address, len + offset)`, i.e. it reads
`len + offset` bytes starting at the storage base address (the header),
not `len` bytes from the payload.  The result value is the byte list the
device read delivers into the caller's buffer. -/
def ReaderGetData {σ : Type} (D : SDev σ) (W : Nat) (r : ReaderState)
    (dev : σ) (len off : Nat) : Bool × List Nat :=
  match getLength D W dev r.addr with
  | none => (false, [])
  | some dataLength =>
      if len + off > dataLength then (false, [])
      else
        match D.read dev r.addr (len + off) with
        | none => (false, [])
        | some bytes => (true, bytes)

/-- What the spec says `GetData` does (`Modelled from the spec:` the
payload-region read "copies from the payload region", i.e. `len` bytes
starting at `m_Address + sizeof(StorageHeaderStruct) + offset`); used only
to exhibit the divergence of the code from the claim. -/
def ReaderGetDataSpec {σ : Type} (D : SDev σ) (W C : Nat) (r : ReaderState)
    (dev : σ) (len off : Nat) : Bool × List Nat :=
  match getLength D W dev r.addr with
  | none => (false, [])
  | some dataLength =>
      if len + off > dataLength then (false, [])
      else
        match D.read dev (r.addr + headerSize W C + off) len with
        | none => (false, [])
        | some bytes => (true, bytes)

/-- Model of `PageStorageClass::PageCheckResultEnum`. -/
inductive PageCheckResultEnum where
  | Ok
  | NoStorage
  | AnotherStorage
  | DeviceError
  | Error
deriving DecidableEq, Repr

/-- Model of `PageStorageClass::CheckOptions`. -/
structure CheckOptions where
  DontCheckCrc : Bool
  DontCheckMetrics : Bool
deriving DecidableEq, Repr

/-- Model of `PageStorageClass::PageHeaderMetricsStruct` field values. -/
structure Metrics where
  TotalLength : Nat
  PageOffset : Nat
  PageLength : Nat
  PageCrc : Nat
deriving DecidableEq, Repr

/-- The mutable member of `PageStorageClass`: `m_Address` (`m_Uuid` is a
const reference, passed here as a parameter). -/
structure PageState where
  addr : Nat
deriving DecidableEq, Repr

/-- Packed `PageHeaderStruct` field offsets for `sizeof(LENGTH_TYPE) = L`:
`TotalLength` at 32, `PageOffset` at `32+L`, `PageLength` at `32+2L`,
`PageCrc` at `32+3L`. -/
def pageHeaderSize (L C : Nat) : Nat := 32 + 3 * L + C

/-- Model of `PageStorageClass::getMetrics`: four sequential field reads; any
failure fails the whole call. -/
def getMetrics {σ : Type} (D : SDev σ) (L C : Nat) (dev : σ) (address : Nat) :
    Option Metrics :=
  match D.read dev (address + 32) L with
  | none => none
  | some t =>
      match D.read dev (address + 32 + L) L with
      | none => none
      | some o =>
          match D.read dev (address + 32 + 2 * L) L with
          | none => none
          | some l =>
              match D.read dev (address + 32 + 3 * L) C with
              | none => none
              | some c => some ⟨decodeLE t, decodeLE o, decodeLE l, decodeLE c⟩

/-- Model of `PageStorageClass::getMaxPageLength`: `pageLen - sizeof(PageHeaderStruct)`.
(`Nat` subtraction truncates at 0 where the C++ unsigned value would wrap;
the class documents `pageLen ≥ sizeof(PageHeaderStruct)`, where both
agree.) -/
def getMaxPageLength (L C pageLen : Nat) : Nat := pageLen - pageHeaderSize L C

/-- Model of `PageStorageClass::isPageCorrect`. -/
def isPageCorrect {σ : Type} (D : SDev σ) (L C : Nat) (ps : PageState)
    (uuid : List Nat) (dev : σ) (address pageLen : Nat)
    (options : CheckOptions) : PageCheckResultEnum × PageState :=
  if ¬ D.compare dev PageStorageUUID address 16 then
    (PageCheckResultEnum.NoStorage, ps)
  else if ¬ D.compare dev uuid (address + 16) 16 then
    (PageCheckResultEnum.AnotherStorage, ps)
  else if options.DontCheckMetrics then (PageCheckResultEnum.Ok, ⟨address⟩)
  else
    match getMetrics D L C dev address with
    | none => (PageCheckResultEnum.DeviceError, ps)
    | some m =>
        if m.PageLength > getMaxPageLength L C pageLen ∨
            m.PageLength > m.TotalLength ∨ m.PageOffset > m.TotalLength then
          (PageCheckResultEnum.Error, ps)
        else if ¬ options.DontCheckCrc ∧
            m.PageCrc ≠ D.crc dev (address + pageHeaderSize L C) m.PageLength then
          (PageCheckResultEnum.Error, ps)
        else (PageCheckResultEnum.Ok, ⟨address⟩)

/-- The ideal storage device: a plain byte map; `compare` is bytewise
equality against the pattern, `read` always succeeds, and the CRC primitive
is a (model) byte sum. -/
def memSDev : SDev (Nat → Nat) where
  compare := fun m pat address len =>
    (List.range len).all (fun i => pat.getD i 0 = m (address + i))
  read := fun m address len => some ((List.range len).map (fun i => m (address + i)))
  crc := fun m address len => (List.range len).foldl (fun acc i => acc + m (address + i)) 0

end Storage

/-! Concrete instances used to exercise the model on explicit inputs. -/

/-- A trivial backing device whose reads return zeroes and whose writes
succeed without recording anything. -/
def unitDev : Cache.Dev Unit :=
  ⟨fun _ _ _ => some (fun _ => 0), fun _ _ _ _ => some ()⟩

/-- A backing device whose writes always fail. -/
def failWriteDev : Cache.Dev Unit :=
  ⟨fun _ _ _ => some (fun _ => 0), fun _ _ _ _ => none⟩

/-- A dirty cache slot resident on page 0 holding the constant byte 7. -/
def dirtySlot : Cache.CacheState := ⟨0, Cache.StatusEnum.Dirty, fun _ => 7⟩

/-- An empty cache slot. -/
def emptySlot : Cache.CacheState := ⟨0, Cache.StatusEnum.Empty, fun _ => 0⟩

/-- A sample backing byte map. -/
def sampleMem : Nat → Nat := fun x => 100 + x

/-- A sample write payload. -/
def sampleData : Nat → Nat := fun i => 10 + i

/-- A sample pre-flush callback (function pointer present, arg token 42). -/
def sampleCb : Cache.PreFlushCallback := ⟨true, 42⟩

/-- A sample user-data UUID. -/
def uuid1 : List Nat := [1, 2, 3, 4, 5, 6, 7, 8, 9, 10, 11, 12, 13, 14, 15, 16]

/-- A byte map holding a valid single-region storage at address 0 for field
widths `W = C = 1`: magic, data UUID, `Length = 2`, `Crc = 12`, payload
`[5, 7]` (whose model CRC, the byte sum, is 12). -/
def storageMem : Nat → Nat := fun x =>
  (Storage.StorageUUID ++ uuid1 ++ [2, 12, 5, 7]).getD x 0

/-- A byte map holding a valid chain page at address 0 for field widths
`L = C = 1`: magic, data UUID, `TotalLength = 2`, `PageOffset = 0`,
`PageLength = 2`, `PageCrc = 12`, payload `[5, 7]`. -/
def pageMem : Nat → Nat := fun x =>
  (Storage.PageStorageUUID ++ uuid1 ++ [2, 0, 2, 12, 5, 7]).getD x 0

/-- Variant of `pageMem` with its first payload byte flipped (5 ↦ 6), so the page CRC
no longer matches. -/
def corruptPageMem : Nat → Nat := fun x => if x = 36 then 6 else pageMem x

section CacheClaims

open Cache

/-- C5: whenever `Flush` runs with a callback supplied (struct present and
function pointer non-null), the callback is invoked exactly once, only
while the slot status is `Dirty`, strictly before the whole-page backing
`Write`, with arguments `(buffer, address, pageSize, userArg)`; when the
slot is not `Dirty` it is never invoked.  The exact call trace `[callback,
write]` (respectively `[]`) expresses all of this at once. -/
theorem claim_C5_preflush_callback {δ : Type} (P : Nat) (D : Dev δ)
    (st : CacheState) (dev : δ) (c : PreFlushCallback)
    (hc : c.fnPresent = true) :
    (st.status = StatusEnum.Dirty →
      (Flush P D st dev (some c)).tr =
        [Ev.cbE st.buf st.addr P c.arg, Ev.writeE st.buf st.addr P]) ∧
    (st.status ≠ StatusEnum.Dirty → (Flush P D st dev (some c)).tr = []) := by
  constructor
  · intro h
    unfold Flush
    cases hw : D.write dev st.buf st.addr P <;> simp [h, hc, hw, cbTrace]
  · intro h
    unfold Flush
    simp [h]

/-- Witness for C5: a dirty slot on page 0 with buffer constantly 7 and a
callback with arg 42 produces exactly the callback-then-write trace. -/
theorem claim_C5_witness :
    (Flush 4 unitDev dirtySlot () (some sampleCb)).tr =
      [Ev.cbE (fun _ => 7) 0 4 42, Ev.writeE (fun _ => 7) 0 4] :=
  (claim_C5_preflush_callback 4 unitDev dirtySlot () sampleCb rfl).1 rfl

/-- C6: if the slot is `Dirty` and the whole-page backing `Write` fails,
`Flush` returns failure and leaves the slot (status, resident address and
buffer) and the device unchanged; when the slot is not `Dirty`, `Flush`
performs no backing call and no callback (empty trace) and returns
success. -/
theorem claim_C6_flush_atomicity {δ : Type} (P : Nat) (D : Dev δ)
    (st : CacheState) (dev : δ) (cb : Option PreFlushCallback) :
    (st.status = StatusEnum.Dirty → D.write dev st.buf st.addr P = none →
      (Flush P D st dev cb).ok = false ∧ (Flush P D st dev cb).st = st ∧
      (Flush P D st dev cb).dev = dev) ∧
    (st.status ≠ StatusEnum.Dirty →
      (Flush P D st dev cb).ok = true ∧ (Flush P D st dev cb).tr = [] ∧
      (Flush P D st dev cb).st = st ∧ (Flush P D st dev cb).dev = dev) := by
  constructor
  · intro h hw
    unfold Flush
    simp [h, hw]
  · intro h
    unfold Flush
    simp [h]

/-- Witness for C6: on the always-failing device, flushing a dirty slot
fails and leaves the slot exactly as it was. -/
theorem claim_C6_witness :
    (Flush 4 failWriteDev dirtySlot () none).ok = false ∧
      (Flush 4 failWriteDev dirtySlot () none).st = dirtySlot :=
  ⟨((claim_C6_flush_atomicity 4 failWriteDev dirtySlot () none).1 rfl rfl).1,
   ((claim_C6_flush_atomicity 4 failWriteDev dirtySlot () none).1 rfl rfl).2.1⟩

/-- C7: when the remaining request starts page-aligned and covers at least
one full page, the `SetData` iteration writes that page directly to the
backing store (one `Write` call with the caller's data) and leaves the
cache slot entirely unchanged; on success it advances by one page.  In
particular a request of exactly one page at an aligned address leaves the
cache slot unchanged by the whole `SetData` call. -/
theorem claim_C7_full_page_bypass {δ : Type} (P : Nat) (D : Dev δ)
    (st : CacheState) (dev : δ) (data : Nat → Nat) (address len : Nat)
    (cb : Option PreFlushCallback) (h1 : address % P = 0) (h2 : P ≤ len) :
    (setDataStep P D st dev data address len cb).st = st ∧
    (setDataStep P D st dev data address len cb).tr =
      [Ev.writeE data address P] ∧
    ((setDataStep P D st dev data address len cb).ok = true →
      (setDataStep P D st dev data address len cb).val = P) ∧
    (SetData P D st dev data address P cb).st = st := by
  have hstep :
      ∀ l, P ≤ l → (setDataStep P D st dev data address l cb).st = st ∧
        (setDataStep P D st dev data address l cb).tr =
          [Ev.writeE data address P] ∧
        ((setDataStep P D st dev data address l cb).ok = true →
          (setDataStep P D st dev data address l cb).val = P) := by
    intro l hl
    unfold setDataStep
    cases hw : D.write dev data address P <;> simp [h1, hl, hw]
  refine ⟨(hstep len h2).1, (hstep len h2).2.1, (hstep len h2).2.2, ?_⟩
  show (SetDataAux P D (P + 1) st dev data address P cb).st = st
  unfold SetDataAux
  rcases hok : (setDataStep P D st dev data address P cb).ok with _ | _
  · simp [hok, (hstep P le_rfl).1]
  · have hv := (hstep P le_rfl).2.2 hok
    simp [hok, hv, (hstep P le_rfl).1]

/-- Witness for C7: an aligned full-page request at address 4 with page
size 4 on the trivial device leaves the dirty slot untouched and produces
exactly one page write. -/
theorem claim_C7_witness :
    (setDataStep 4 unitDev dirtySlot () sampleData 4 4 none).st = dirtySlot ∧
      (setDataStep 4 unitDev dirtySlot () sampleData 4 4 none).tr =
        [Ev.writeE sampleData 4 4] :=
  ⟨(claim_C7_full_page_bypass 4 unitDev dirtySlot () sampleData 4 4 none rfl
      le_rfl).1,
   (claim_C7_full_page_bypass 4 unitDev dirtySlot () sampleData 4 4 none rfl
      le_rfl).2.1⟩

/-- C10: `Clear` sets the status to `Empty` from any status while touching
neither the resident address nor the buffer, performs no backing I/O and
cannot fail (it is a pure state update); consequently a subsequent `Flush`
performs no backing call at all (empty trace), so bytes buffered while
`Dirty` are silently discarded and never reach the backing store. -/
theorem claim_C10_clear_discards {δ : Type} (P : Nat) (D : Dev δ)
    (st : CacheState) (dev : δ) (cb : Option PreFlushCallback) :
    (Clear st).status = StatusEnum.Empty ∧ (Clear st).addr = st.addr ∧
    (Clear st).buf = st.buf ∧
    (Flush P D (Clear st) dev cb).ok = true ∧
    (Flush P D (Clear st) dev cb).tr = [] ∧
    (Flush P D (Clear st) dev cb).dev = dev := by
  refine ⟨rfl, rfl, rfl, ?_, ?_, ?_⟩ <;> unfold Flush Clear <;> simp

end CacheClaims

section StorageClaims

open Storage

/-- C3: `IsStorageCorrect` checks in fixed order and returns the first
failing outcome — magic mismatch gives `NoStorage`; otherwise a `DataId`
mismatch gives `AnotherStorage`; otherwise a failed read of the `Length` or
`Crc` field gives `DeviceError`; otherwise a stored CRC differing from the
CRC recomputed over `Length` payload bytes gives `StorageError`; on a CRC
match it returns `Ok` and the validated address becomes the object's active
base address. -/
theorem claim_C3_check_region_order {σ : Type} (D : SDev σ) (W C : Nat)
    (r : ReaderState) (dev : σ) (address : Nat) (uuid : List Nat) :
    ((IsStorageCorrect D W C r dev address uuid).1 =
        StorageCheckEnum.NoStorage ↔
      D.compare dev StorageUUID address 16 = false) ∧
    ((IsStorageCorrect D W C r dev address uuid).1 =
        StorageCheckEnum.AnotherStorage ↔
      D.compare dev StorageUUID address 16 = true ∧
        D.compare dev uuid (address + 16) 16 = false) ∧
    ((IsStorageCorrect D W C r dev address uuid).1 =
        StorageCheckEnum.DeviceError ↔
      D.compare dev StorageUUID address 16 = true ∧
        D.compare dev uuid (address + 16) 16 = true ∧
        (getLength D W dev address = none ∨ getCrc D W C dev address = none)) ∧
    ((IsStorageCorrect D W C r dev address uuid).1 =
        StorageCheckEnum.StorageError ↔
      D.compare dev StorageUUID address 16 = true ∧
        D.compare dev uuid (address + 16) 16 = true ∧
        ∃ l cr, getLength D W dev address = some l ∧
          getCrc D W C dev address = some cr ∧
          cr ≠ D.crc dev (address + headerSize W C) l) ∧
    ((IsStorageCorrect D W C r dev address uuid).1 = StorageCheckEnum.Ok ↔
      D.compare dev StorageUUID address 16 = true ∧
        D.compare dev uuid (address + 16) 16 = true ∧
        ∃ l cr, getLength D W dev address = some l ∧
          getCrc D W C dev address = some cr ∧
          cr = D.crc dev (address + headerSize W C) l) ∧
    ((IsStorageCorrect D W C r dev address uuid).1 = StorageCheckEnum.Ok →
      (IsStorageCorrect D W C r dev address uuid).2 = ⟨address⟩) := by
  unfold IsStorageCorrect
  cases hm : D.compare dev StorageUUID address 16
  · simp [hm]
  · cases hi : D.compare dev uuid (address + 16) 16
    · simp [hm, hi]
    · cases hl : getLength D W dev address
      · simp [hm, hi, hl]
      · cases hcr : getCrc D W C dev address
        · simp [hm, hi, hl, hcr]
        · rename_i l cr
          by_cases hcmp : cr = D.crc dev (address + headerSize W C) l <;>
            simp [hm, hi, hl, hcr, hcmp]

/-- Witness for C3: on the valid single-region image the check returns `Ok`
and sets the active base address to the validated address 0. -/
theorem claim_C3_witness :
    (IsStorageCorrect memSDev 1 1 ⟨9⟩ storageMem 0 uuid1).1 =
      StorageCheckEnum.Ok ∧
    (IsStorageCorrect memSDev 1 1 ⟨9⟩ storageMem 0 uuid1).2 = ⟨0⟩ := by
  have h := claim_C3_check_region_order memSDev 1 1 ⟨9⟩ storageMem 0 uuid1
  have hok : (IsStorageCorrect memSDev 1 1 ⟨9⟩ storageMem 0 uuid1).1 =
      StorageCheckEnum.Ok :=
    h.2.2.2.2.1.mpr ⟨by decide, by decide, 2, 12, by decide, by decide, by decide⟩
  exact ⟨hok, h.2.2.2.2.2 hok⟩

/-- C9: both validators assign the object's stored active address only on
an `Ok` outcome; on every other outcome the object state is returned
unchanged (the address is the only mutable object state in the model:
`m_Uuid` is a const reference). -/
theorem claim_C9_validator_frame {σ τ : Type} (D : SDev σ) (E : SDev τ)
    (W C L C2 : Nat) (r : ReaderState) (ps : PageState) (dev : σ) (dev2 : τ)
    (address address2 pageLen : Nat) (uuid uuid2 : List Nat)
    (options : CheckOptions) :
    ((IsStorageCorrect D W C r dev address uuid).1 ≠ StorageCheckEnum.Ok →
      (IsStorageCorrect D W C r dev address uuid).2 = r) ∧
    ((IsStorageCorrect D W C r dev address uuid).1 = StorageCheckEnum.Ok →
      (IsStorageCorrect D W C r dev address uuid).2 = ⟨address⟩) ∧
    ((isPageCorrect E L C2 ps uuid2 dev2 address2 pageLen options).1 ≠
        PageCheckResultEnum.Ok →
      (isPageCorrect E L C2 ps uuid2 dev2 address2 pageLen options).2 = ps) ∧
    ((isPageCorrect E L C2 ps uuid2 dev2 address2 pageLen options).1 =
        PageCheckResultEnum.Ok →
      (isPageCorrect E L C2 ps uuid2 dev2 address2 pageLen options).2 =
        ⟨address2⟩) := by
  refine ⟨?_, ?_, ?_, ?_⟩
  · unfold IsStorageCorrect
    cases hm : D.compare dev StorageUUID address 16 <;> simp [hm]
    cases hi : D.compare dev uuid (address + 16) 16 <;> simp [hi]
    cases hl : getLength D W dev address <;> simp
    rename_i l
    cases hcr : getCrc D W C dev address <;> simp
    rename_i cr
    by_cases hcmp : cr = D.crc dev (address + headerSize W C) l <;> simp [hcmp]
  · unfold IsStorageCorrect
    cases hm : D.compare dev StorageUUID address 16 <;> simp [hm]
    cases hi : D.compare dev uuid (address + 16) 16 <;> simp [hi]
    cases hl : getLength D W dev address <;> simp
    rename_i l
    cases hcr : getCrc D W C dev address <;> simp
    rename_i cr
    by_cases hcmp : cr = D.crc dev (address + headerSize W C) l <;> simp [hcmp]
  · unfold isPageCorrect
    cases hm : E.compare dev2 PageStorageUUID address2 16 <;> simp [hm]
    cases hi : E.compare dev2 uuid2 (address2 + 16) 16 <;> simp [hi]
    cases hsk : options.DontCheckMetrics <;> simp [hsk]
    cases hmet : getMetrics E L C2 dev2 address2 <;> simp
    rename_i m
    by_cases hv : m.PageLength > getMaxPageLength L C2 pageLen ∨
        m.PageLength > m.TotalLength ∨ m.PageOffset > m.TotalLength <;>
      simp [hv]
    split <;> simp
  · unfold isPageCorrect
    cases hm : E.compare dev2 PageStorageUUID address2 16 <;> simp [hm]
    cases hi : E.compare dev2 uuid2 (address2 + 16) 16 <;> simp [hi]
    cases hsk : options.DontCheckMetrics <;> simp [hsk]
    cases hmet : getMetrics E L C2 dev2 address2 <;> simp
    rename_i m
    by_cases hv : m.PageLength > getMaxPageLength L C2 pageLen ∨
        m.PageLength > m.TotalLength ∨ m.PageOffset > m.TotalLength <;>
      simp [hv]
    split <;> simp

/-- Witness for C9: on the CRC-corrupted page image the check fails with
`Error` and the stored address (7) is untouched; on the valid single-region
image the check returns `Ok` and the address becomes 0. -/
theorem claim_C9_witness :
    (isPageCorrect memSDev 1 1 ⟨7⟩ uuid1 corruptPageMem 0 40 ⟨false, false⟩).2 =
      ⟨7⟩ ∧
    (IsStorageCorrect memSDev 1 1 ⟨9⟩ storageMem 0 uuid1).2 = ⟨0⟩ :=
  ⟨(claim_C9_validator_frame memSDev memSDev 1 1 1 1 ⟨9⟩ ⟨7⟩ storageMem
      corruptPageMem 0 0 40 uuid1 uuid1 ⟨false, false⟩).2.2.1 (by decide),
   (claim_C9_validator_frame memSDev memSDev 1 1 1 1 ⟨9⟩ ⟨7⟩ storageMem
      corruptPageMem 0 0 40 uuid1 uuid1 ⟨false, false⟩).2.1 (by decide)⟩

/-- C4: `isPageCorrect` option gating, after the magic and data-identity
checks pass: unless `DontCheckMetrics`, a failed metrics read returns
`DeviceError` and a violated size invariant (`PageLength ≤ pageLen − header
size`, `PageLength ≤ TotalLength`, `PageOffset ≤ TotalLength`) returns
`Error`; unless `DontCheckCrc` (metrics having been checked), a CRC
mismatch over `PageLength` payload bytes returns `Error`, while with
`DontCheckCrc` set a page passing the metrics checks is `Ok` regardless of
its CRC; setting `DontCheckMetrics` skips both the metrics and the CRC
checks and returns `Ok` outright. -/
theorem claim_C4_check_page_gating {σ : Type} (D : SDev σ) (L C : Nat)
    (ps : PageState) (uuid : List Nat) (dev : σ) (address pageLen : Nat)
    (options : CheckOptions)
    (hm : D.compare dev PageStorageUUID address 16 = true)
    (hi : D.compare dev uuid (address + 16) 16 = true) :
    (options.DontCheckMetrics = false →
      (getMetrics D L C dev address = none →
        (isPageCorrect D L C ps uuid dev address pageLen options).1 =
          PageCheckResultEnum.DeviceError) ∧
      (∀ m, getMetrics D L C dev address = some m →
        (m.PageLength > getMaxPageLength L C pageLen ∨
          m.PageLength > m.TotalLength ∨ m.PageOffset > m.TotalLength) →
        (isPageCorrect D L C ps uuid dev address pageLen options).1 =
          PageCheckResultEnum.Error) ∧
      (∀ m, getMetrics D L C dev address = some m →
        ¬ (m.PageLength > getMaxPageLength L C pageLen ∨
            m.PageLength > m.TotalLength ∨ m.PageOffset > m.TotalLength) →
        options.DontCheckCrc = false →
        m.PageCrc ≠ D.crc dev (address + pageHeaderSize L C) m.PageLength →
        (isPageCorrect D L C ps uuid dev address pageLen options).1 =
          PageCheckResultEnum.Error) ∧
      (∀ m, getMetrics D L C dev address = some m →
        ¬ (m.PageLength > getMaxPageLength L C pageLen ∨
            m.PageLength > m.TotalLength ∨ m.PageOffset > m.TotalLength) →
        options.DontCheckCrc = true →
        (isPageCorrect D L C ps uuid dev address pageLen options).1 =
          PageCheckResultEnum.Ok)) ∧
    (options.DontCheckMetrics = true →
      (isPageCorrect D L C ps uuid dev address pageLen options).1 =
        PageCheckResultEnum.Ok) := by
  constructor
  · intro hsk
    refine ⟨?_, ?_, ?_, ?_⟩
    · intro hmet
      unfold isPageCorrect
      simp [hm, hi, hsk, hmet]
    · intro m hmet hv
      unfold isPageCorrect
      simp [hm, hi, hsk, hmet, hv]
    · intro m hmet hv hcc hne
      unfold isPageCorrect
      simp [hm, hi, hsk, hmet, hv, hcc, hne]
    · intro m hmet hv hcc
      unfold isPageCorrect
      simp [hm, hi, hsk, hmet, hv, hcc]
  · intro hsk
    unfold isPageCorrect
    simp [hm, hi, hsk]

/-- Witness for C4: on the CRC-corrupted page image with both checks
enabled the check returns `Error`, and with `DontCheckMetrics` set the same
image passes as `Ok`. -/
theorem claim_C4_witness :
    (isPageCorrect memSDev 1 1 ⟨7⟩ uuid1 corruptPageMem 0 40 ⟨false, false⟩).1 =
      PageCheckResultEnum.Error ∧
    (isPageCorrect memSDev 1 1 ⟨7⟩ uuid1 corruptPageMem 0 40 ⟨false, true⟩).1 =
      PageCheckResultEnum.Ok :=
  ⟨((claim_C4_check_page_gating memSDev 1 1 ⟨7⟩ uuid1 corruptPageMem 0 40
      ⟨false, false⟩ (by decide) (by decide)).1 rfl).2.2.1 ⟨2, 0, 2, 12⟩
      (by decide) (by decide) rfl (by decide),
   (claim_C4_check_page_gating memSDev 1 1 ⟨7⟩ uuid1 corruptPageMem 0 40
      ⟨false, true⟩ (by decide) (by decide)).2 rfl⟩

/-- C2: the claim fails on the code.  After the bound check succeeds,
`GetData` executes `Read(data, m_Address, len + offset)`: on the valid
single-region image (payload `[5, 7]`, `Length = 2`), `GetData(len = 1,
offset = 1)` returns `true` but delivers the two bytes `[0xB0, 0x24]` read
from the header base (the magic constant) into the caller's 1-byte buffer,
instead of the single payload byte `[7]` at base + header size + offset
that the claim (and the function's own parameter documentation) describe. -/
theorem claim_C2_getdata_bug :
    ReaderGetData memSDev 1 ⟨0⟩ storageMem 1 1 = (true, [0xB0, 0x24]) ∧
    ReaderGetDataSpec memSDev 1 1 ⟨0⟩ storageMem 1 1 = (true, [7]) ∧
    ([0xB0, 0x24] : List Nat) ≠ [7] := by decide

end StorageClaims

section CacheCoherence

open Cache

theorem pageBase_le (P A : Nat) : pageBase P A ≤ A := Nat.sub_le _ _

theorem pageBase_add_mod (P A : Nat) : pageBase P A + A % P = A := by
  have h := Nat.mod_le A P
  unfold pageBase
  omega

theorem pageBase_eq_mul (P A : Nat) : pageBase P A = P * (A / P) := by
  have h := Nat.div_add_mod A P
  unfold pageBase
  omega

theorem pageBase_mod (P A : Nat) : pageBase P A % P = 0 := by
  rw [pageBase_eq_mul]
  simp [Nat.mul_mod_right]

theorem pageBase_aligned (P B : Nat) (h : B % P = 0) : pageBase P B = B := by
  unfold pageBase
  omega

theorem mod_add_of_lt (P A i : Nat) (h : A % P + i < P) :
    (A + i) % P = A % P + i := by
  conv_lhs => rw [← Nat.div_add_mod A P]
  rw [Nat.add_assoc, Nat.mul_add_mod]
  exact Nat.mod_eq_of_lt h

theorem pageBase_add_of_lt (P A i : Nat) (h : A % P + i < P) :
    pageBase P (A + i) = pageBase P A := by
  unfold pageBase
  rw [mod_add_of_lt P A i h]
  omega

theorem sub_pageBase (P x : Nat) : x - pageBase P x = x % P := by
  have h := Nat.mod_le x P
  unfold pageBase
  omega

theorem pageBase_mono (P A B : Nat) (h : A ≤ B) : pageBase P A ≤ pageBase P B := by
  rw [pageBase_eq_mul, pageBase_eq_mul]
  exact Nat.mul_le_mul_left _ (Nat.div_le_div_right h)

theorem mem_page_iff (P B x : Nat) (hP : 0 < P) (hB : B % P = 0) :
    (B ≤ x ∧ x < B + P) ↔ pageBase P x = B := by
  constructor
  · rintro ⟨h1, h2⟩
    have hx : x = B + (x - B) := by omega
    rw [hx, pageBase_add_of_lt P B (x - B) (by omega), pageBase_aligned P B hB]
  · intro h
    have h1 := pageBase_le P x
    have h2 := sub_pageBase P x
    have h3 := Nat.mod_lt x hP
    omega

theorem isInCache_iff (P : Nat) (st : CacheState) (address : Nat) :
    isInCache P st address = true ↔
      st.status ≠ StatusEnum.Empty ∧ st.addr = pageBase P address := by
  simp [isInCache]

theorem isInCache_congr (P : Nat) (st : CacheState) (A i : Nat)
    (h : A % P + i < P) : isInCache P st (A + i) = isInCache P st A := by
  simp [isInCache, pageBase_add_of_lt P A i h]

/-- On the ideal device, `GetData`'s loop succeeds given enough fuel and
returns exactly the composite cache/backing view of the requested range,
without touching cache or device state. -/
theorem getDataAux_spec (P : Nat) (hP : 0 < P) :
    ∀ fuel (st : CacheState) (m : Nat → Nat) (address len : Nat),
      len < fuel →
      (GetDataAux P memDev fuel st m address len).ok = true ∧
      (GetDataAux P memDev fuel st m address len).val =
        (List.range len).map (fun i => view P st m (address + i)) ∧
      (GetDataAux P memDev fuel st m address len).st = st ∧
      (GetDataAux P memDev fuel st m address len).dev = m := by
  intro fuel
  induction fuel with
  | zero => intro st m address len h; omega
  | succ fuel ih =>
      intro st m address len hlen
      have ha : address % P < P := Nat.mod_lt _ hP
      have hd_le : min (P - address % P) len ≤ len := Nat.min_le_right _ _
      set a := address % P with haDef
      set d := min (P - a) len with hdDef
      have hseg : ∀ f : Nat → Nat,
          (∀ i, i < d → f i = view P st m (address + i)) →
          (List.range d).map f =
            (List.range d).map (fun i => view P st m (address + i)) := by
        intro f hf
        apply List.map_congr_left
        intro i hi
        exact hf i (List.mem_range.mp hi)
      have hcong : ∀ i, i < d → isInCache P st (address + i) = isInCache P st address := by
        intro i hi
        exact isInCache_congr P st address i (by omega)
      have hmod : ∀ i, i < d → (address + i) % P = a + i := by
        intro i hi
        exact mod_add_of_lt P address i (by omega)
      have hsplit :
          (List.range len).map (fun i => view P st m (address + i)) =
            (List.range d).map (fun i => view P st m (address + i)) ++
              (List.range (len - d)).map
                (fun i => view P st m (address + d + i)) := by
        have h2 : len = d + (len - d) := by omega
        calc (List.range len).map (fun i => view P st m (address + i))
            = (List.range (d + (len - d))).map
                (fun i => view P st m (address + i)) := by rw [← h2]
          _ = (List.range d).map (fun i => view P st m (address + i)) ++
                (List.range (len - d)).map
                  ((fun i => view P st m (address + i)) ∘ (d + ·)) := by
              rw [List.range_add, List.map_append, List.map_map]
          _ = (List.range d).map (fun i => view P st m (address + i)) ++
                (List.range (len - d)).map
                  (fun i => view P st m (address + d + i)) := by
              congr 1
              apply List.map_congr_left
              intro i _
              simp only [Function.comp]
              congr 1
              omega
      by_cases hin : isInCache P st address = true
      · -- copy from the RAM buffer
        have hbuf : ∀ i, i < d → st.buf (a + i) = view P st m (address + i) := by
          intro i hi
          rw [view, hcong i hi, if_pos hin, hmod i hi]
        by_cases hend : len - d = 0
        · have hdl : d = len := by omega
          simp only [GetDataAux, ← haDef, ← hdDef]
          rw [if_pos hin, if_pos hend]
          refine ⟨rfl, ?_, rfl, rfl⟩
          show (List.range d).map (fun i => st.buf (a + i)) = _
          rw [hseg _ hbuf, hdl]
        · have hd1 : 0 < d := by
            rcases Nat.eq_zero_or_pos d with h | h
            · exfalso
              rcases Nat.min_eq_zero_iff.mp (hdDef ▸ h) with h' | h' <;> omega
            · exact h
          have hrec := ih st m (address + d) (len - d) (by omega)
          simp only [GetDataAux, ← haDef, ← hdDef]
          rw [if_pos hin, if_neg hend]
          refine ⟨hrec.1, ?_, hrec.2.2.1, hrec.2.2.2⟩
          show (List.range d).map (fun i => st.buf (a + i)) ++
              (GetDataAux P memDev fuel st m (address + d) (len - d)).val = _
          rw [hsplit, hseg _ hbuf, hrec.2.1]
      · -- read directly from the backing store
        have hview : ∀ i, i < d → m (address + i) = view P st m (address + i) := by
          intro i hi
          rw [view, hcong i hi]
          simp [hin]
        by_cases hend : len - d = 0
        · have hdl : d = len := by omega
          simp only [GetDataAux, ← haDef, ← hdDef, memDev]
          rw [if_neg hin, if_pos hend]
          refine ⟨rfl, ?_, rfl, rfl⟩
          show (List.range d).map (fun i => m (address + i)) = _
          rw [hseg _ hview, hdl]
        · have hd1 : 0 < d := by
            rcases Nat.eq_zero_or_pos d with h | h
            · exfalso
              rcases Nat.min_eq_zero_iff.mp (hdDef ▸ h) with h' | h' <;> omega
            · exact h
          have hrec := ih st m (address + d) (len - d) (by omega)
          simp only [GetDataAux, ← haDef, ← hdDef, memDev]
          rw [if_neg hin, if_neg hend]
          refine ⟨hrec.1, ?_, hrec.2.2.1, hrec.2.2.2⟩
          show (List.range d).map (fun i => m (address + i)) ++
              (GetDataAux P memDev fuel st m (address + d) (len - d)).val = _
          rw [hsplit, hseg _ hview, hrec.2.1]

/-- On any device, `GetData`'s loop never changes the cache slot or the
device state and its trace consists of read calls only. -/
theorem getDataAux_frame {δ : Type} (P : Nat) (D : Dev δ) :
    ∀ fuel (st : CacheState) (dev : δ) (address len : Nat),
      (GetDataAux P D fuel st dev address len).st = st ∧
      (GetDataAux P D fuel st dev address len).dev = dev ∧
      ∀ e ∈ (GetDataAux P D fuel st dev address len).tr, e.isRead = true := by
  intro fuel
  induction fuel with
  | zero =>
      intro st dev address len
      exact ⟨rfl, rfl, by intro e he; simp [GetDataAux] at he⟩
  | succ fuel ih =>
      intro st dev address len
      simp only [GetDataAux]
      by_cases hin : isInCache P st address = true
      · simp only [hin, if_true]
        by_cases hend : len - min (P - address % P) len = 0
        · simp [hend]
        · have hrec := ih st dev (address + min (P - address % P) len)
            (len - min (P - address % P) len)
          simp only [hend, ite_false, if_neg hend]
          exact ⟨hrec.1, hrec.2.1, hrec.2.2⟩
      · simp only [hin, Bool.false_eq_true, ite_false]
        cases hr : D.read dev address (min (P - address % P) len) with
        | none => exact ⟨rfl, rfl, by intro e he; simp at he; simp [he, Ev.isRead]⟩
        | some f =>
            by_cases hend : len - min (P - address % P) len = 0
            · simp only [hend, if_pos rfl]
              exact ⟨rfl, rfl, by intro e he; simp at he; simp [he, Ev.isRead]⟩
            · have hrec := ih st dev (address + min (P - address % P) len)
                (len - min (P - address % P) len)
              simp only [hend, ite_false, if_neg hend]
              refine ⟨hrec.1, hrec.2.1, ?_⟩
              intro e he
              simp at he
              rcases he with he | he
              · simp [he, Ev.isRead]
              · exact hrec.2.2 e he

/-- C8: read-through without caching — `GetData` never changes the cache
slot (status, resident address, buffer) or the device state, and its trace
contains only backing reads (never a write or a callback); and on the ideal
backing store its result is, segment by segment, the composite view: bytes
of the resident page come from the RAM buffer (so unflushed writes are
visible) and all other bytes come directly from the backing store. -/
theorem claim_C8_read_through {δ : Type} (P : Nat) (D : Dev δ)
    (st : CacheState) (dev : δ) (m : Nat → Nat) (address len : Nat)
    (hP : 0 < P) :
    (GetData P D st dev address len).st = st ∧
    (GetData P D st dev address len).dev = dev ∧
    (∀ e ∈ (GetData P D st dev address len).tr, e.isRead = true) ∧
    (GetData P memDev st m address len).ok = true ∧
    (GetData P memDev st m address len).val =
      (List.range len).map (fun i => view P st m (address + i)) := by
  have hf := getDataAux_frame P D (len + 1) st dev address len
  have hs := getDataAux_spec P hP (len + 1) st m address len (by omega)
  exact ⟨hf.1, hf.2.1, hf.2.2, hs.1, hs.2.1⟩

/-- Witness for C8: with page 0 resident and dirty (buffer constantly 7),
reading 4 bytes at address 2 with page size 4 yields the two unflushed
buffer bytes then two backing bytes, and leaves the slot untouched. -/
theorem claim_C8_witness :
    (GetData 4 memDev dirtySlot sampleMem 2 4).val = [7, 7, 104, 105] ∧
    (GetData 4 unitDev dirtySlot () 2 4).st = dirtySlot :=
  ⟨(claim_C8_read_through 4 memDev dirtySlot sampleMem sampleMem 2 4
      (by decide)).2.2.2.2.trans (by decide),
   (claim_C8_read_through 4 unitDev dirtySlot () sampleMem 2 4 (by decide)).1⟩

/-- Under the `SetData` loop invariant, `setAddress` on the ideal device
succeeds and leaves an empty slot based at the request's page, with the
device holding exactly the previous composite view (a pending dirty page,
if any, has been flushed into it). -/
theorem setAddress_ideal (P : Nat) (hP : 0 < P) (st : CacheState)
    (m : Nat → Nat) (address : Nat) (cb : Option PreFlushCallback)
    (hInv : Inv P st address) :
    (setAddress P memDev st m address cb).ok = true ∧
    (setAddress P memDev st m address cb).st =
      ⟨pageBase P address, StatusEnum.Empty, st.buf⟩ ∧
    ∀ x, (setAddress P memDev st m address cb).dev x = view P st m x := by
  obtain ⟨ad, stt, bf⟩ := st
  rcases hInv with h0 | ⟨hd, hal, hlt⟩
  · -- slot empty: no flush happens
    have h0' : stt = StatusEnum.Empty := h0
    subst h0'
    have hcond : ¬ ((⟨ad, StatusEnum.Empty, bf⟩ : CacheState).status =
        StatusEnum.Dirty ∧
        isInCache P ⟨ad, StatusEnum.Empty, bf⟩ address = false) := by
      rintro ⟨h1, -⟩
      exact StatusEnum.noConfusion h1
    unfold setAddress
    rw [if_neg hcond]
    refine ⟨rfl, rfl, ?_⟩
    intro x
    have : isInCache P ⟨ad, StatusEnum.Empty, bf⟩ x = false := by
      simp [isInCache]
    simp [view, this]
  · -- slot dirty on an earlier page: flush into the device
    have hd' : stt = StatusEnum.Dirty := hd
    subst hd'
    have hfloor : ad + P ≤ pageBase P address := by
      have h1 := pageBase_mono P (ad + P) address hlt
      rwa [pageBase_aligned P (ad + P) (by rw [Nat.add_mod_right]; exact hal)]
        at h1
    have hnic : isInCache P ⟨ad, StatusEnum.Dirty, bf⟩ address = false := by
      simp only [isInCache, decide_eq_false_iff_not]
      rintro ⟨-, h2⟩
      have h2' : ad = pageBase P address := h2
      omega
    have hFok : (Flush P memDev ⟨ad, StatusEnum.Dirty, bf⟩ m cb).ok = true := by
      unfold Flush
      rw [if_pos rfl]
      rfl
    have hFst : (Flush P memDev ⟨ad, StatusEnum.Dirty, bf⟩ m cb).st =
        ⟨ad, StatusEnum.Empty, bf⟩ := by
      unfold Flush
      rw [if_pos rfl]
      rfl
    have hFdev : (Flush P memDev ⟨ad, StatusEnum.Dirty, bf⟩ m cb).dev =
        fun x => if ad ≤ x ∧ x < ad + P then bf (x - ad) else m x := by
      unfold Flush
      rw [if_pos rfl]
      rfl
    have hcond : ((⟨ad, StatusEnum.Dirty, bf⟩ : CacheState).status =
        StatusEnum.Dirty ∧
        isInCache P ⟨ad, StatusEnum.Dirty, bf⟩ address = false) := ⟨rfl, hnic⟩
    have hsa : setAddress P memDev ⟨ad, StatusEnum.Dirty, bf⟩ m address cb =
        ⟨true, (), ⟨pageBase P address, StatusEnum.Empty, bf⟩,
          (Flush P memDev ⟨ad, StatusEnum.Dirty, bf⟩ m cb).dev,
          (Flush P memDev ⟨ad, StatusEnum.Dirty, bf⟩ m cb).tr⟩ := by
      unfold setAddress
      rw [if_pos hcond, if_pos hFok, hFst]
    rw [hsa]
    refine ⟨rfl, rfl, ?_⟩
    intro x
    show (Flush P memDev ⟨ad, StatusEnum.Dirty, bf⟩ m cb).dev x = _
    rw [hFdev]
    by_cases hpb : pageBase P x = ad
    · have hx : ad ≤ x ∧ x < ad + P := (mem_page_iff P ad x hP hal).mpr hpb
      have hxm : x - ad = x % P := by
        have := sub_pageBase P x
        omega
      have hic : isInCache P ⟨ad, StatusEnum.Dirty, bf⟩ x = true := by
        simp [isInCache, hpb]
      simp [view, hx, hic, hxm]
    · have hx : ¬ (ad ≤ x ∧ x < ad + P) := by
        intro hx
        exact hpb ((mem_page_iff P ad x hP hal).mp hx)
      have hic : isInCache P ⟨ad, StatusEnum.Dirty, bf⟩ x = false := by
        simp only [isInCache, decide_eq_false_iff_not]
        rintro ⟨-, h2⟩
        exact hpb (show ad = pageBase P x from h2).symm
      simp [view, hx, hic]

/-- Behaviour of `setDataTail` on the ideal device: it succeeds, consumes
`pageDataLen = min (P - address % P) len` bytes, and produces a dirty slot
at the same base whose buffer holds the copied bytes on the copied span,
the freshly read backing tail beyond it, and the previous buffer contents
before it. -/
theorem setDataTail_ideal (P B address len : Nat) (bf2 mE data : Nat → Nat)
    (tr0 : List Ev) :
    (setDataTail P memDev ⟨B, StatusEnum.Empty, bf2⟩ mE data address len
        tr0).ok = true ∧
    (setDataTail P memDev ⟨B, StatusEnum.Empty, bf2⟩ mE data address len
        tr0).val = min (P - address % P) len ∧
    (setDataTail P memDev ⟨B, StatusEnum.Empty, bf2⟩ mE data address len
        tr0).dev = mE ∧
    (setDataTail P memDev ⟨B, StatusEnum.Empty, bf2⟩ mE data address len
        tr0).st.addr = B ∧
    (setDataTail P memDev ⟨B, StatusEnum.Empty, bf2⟩ mE data address len
        tr0).st.status = StatusEnum.Dirty ∧
    ∀ i, i < P →
      (setDataTail P memDev ⟨B, StatusEnum.Empty, bf2⟩ mE data address len
          tr0).st.buf i =
        if address % P ≤ i ∧ i < address % P + min (P - address % P) len then
          data (i - address % P)
        else if address % P + min (P - address % P) len ≤ i then mE (B + i)
        else bf2 i := by
  by_cases htl : min (P - address % P) len < P - address % P
  · have hred : setDataTail P memDev ⟨B, StatusEnum.Empty, bf2⟩ mE data address
        len tr0 =
        ⟨true, min (P - address % P) len,
          ⟨B, StatusEnum.Dirty,
            blit (blit bf2 (address % P) data (min (P - address % P) len))
              (address % P + min (P - address % P) len)
              (fun j => mE (B + address % P + min (P - address % P) len + j))
              (P - address % P - min (P - address % P) len)⟩,
          mE,
          tr0 ++ [Ev.readE (B + address % P + min (P - address % P) len)
            (P - address % P - min (P - address % P) len)]⟩ := by
      unfold setDataTail
      rw [if_pos ⟨rfl, htl⟩]
      rfl
    rw [hred]
    refine ⟨rfl, rfl, rfl, rfl, rfl, ?_⟩
    intro i hi
    have hP0 : 0 < P := by omega
    have haP : address % P < P := Nat.mod_lt _ hP0
    have hmin : min (P - address % P) len ≤ P - address % P :=
      Nat.min_le_left _ _
    show blit (blit bf2 (address % P) data (min (P - address % P) len))
        (address % P + min (P - address % P) len)
        (fun j => mE (B + address % P + min (P - address % P) len + j))
        (P - address % P - min (P - address % P) len) i = _
    set dd := min (P - address % P) len with hddDef
    simp only [blit]
    split_ifs <;> first
      | rfl
      | (congr 1; omega)
      | omega
  · have hred : setDataTail P memDev ⟨B, StatusEnum.Empty, bf2⟩ mE data address
        len tr0 =
        ⟨true, min (P - address % P) len,
          ⟨B, StatusEnum.Dirty,
            blit bf2 (address % P) data (min (P - address % P) len)⟩,
          mE, tr0⟩ := by
      unfold setDataTail
      rw [if_neg (by rintro ⟨-, h2⟩; exact htl h2)]
    rw [hred]
    refine ⟨rfl, rfl, rfl, rfl, rfl, ?_⟩
    intro i hi
    have hP0 : 0 < P := by omega
    have haP : address % P < P := Nat.mod_lt _ hP0
    have hmin : min (P - address % P) len ≤ P - address % P :=
      Nat.min_le_left _ _
    have hge : P - address % P ≤ min (P - address % P) len :=
      Nat.le_of_not_lt htl
    show blit bf2 (address % P) data (min (P - address % P) len) i = _
    set dd := min (P - address % P) len with hddDef
    simp only [blit]
    split_ifs <;> first
      | rfl
      | (congr 1; omega)
      | omega

/-- Behaviour of `setDataHead` on the ideal device, starting from an empty slot based at
the page of `address`: it succeeds, consumes `pageDataLen` bytes, and
produces a dirty slot whose buffer holds the backing head before the
in-page offset, the copied bytes on the copied span, and the backing tail
beyond it. -/
theorem setDataHead_ideal (P : Nat) (hP : 0 < P) (address len B : Nat)
    (hBadd : B + address % P = address) (bf mE data : Nat → Nat)
    (tr0 : List Ev) :
    (setDataHead P memDev ⟨B, StatusEnum.Empty, bf⟩ mE data address len
        tr0).ok = true ∧
    (setDataHead P memDev ⟨B, StatusEnum.Empty, bf⟩ mE data address len
        tr0).val = min (P - address % P) len ∧
    (setDataHead P memDev ⟨B, StatusEnum.Empty, bf⟩ mE data address len
        tr0).dev = mE ∧
    (setDataHead P memDev ⟨B, StatusEnum.Empty, bf⟩ mE data address len
        tr0).st.addr = B ∧
    (setDataHead P memDev ⟨B, StatusEnum.Empty, bf⟩ mE data address len
        tr0).st.status = StatusEnum.Dirty ∧
    ∀ i, i < P →
      (setDataHead P memDev ⟨B, StatusEnum.Empty, bf⟩ mE data address len
          tr0).st.buf i =
        if i < address % P then mE (B + i)
        else if i < address % P + min (P - address % P) len then
          data (i - address % P)
        else mE (B + i) := by
  by_cases ha0 : address % P = 0
  · have hcond : ¬ ((⟨B, StatusEnum.Empty, bf⟩ : CacheState).status =
        StatusEnum.Empty ∧ (⟨B, StatusEnum.Empty, bf⟩ : CacheState).addr ≠
          address) := by
      rintro ⟨-, hne⟩
      refine hne ?_
      show B = address
      omega
    have hred : setDataHead P memDev ⟨B, StatusEnum.Empty, bf⟩ mE data address
        len tr0 =
        setDataTail P memDev ⟨B, StatusEnum.Empty, bf⟩ mE data address len
          tr0 := by
      unfold setDataHead
      rw [if_neg hcond]
    obtain ⟨h1, h2, h3, h4, h5, h6⟩ :=
      setDataTail_ideal P B address len bf mE data tr0
    rw [hred]
    refine ⟨h1, h2, h3, h4, h5, ?_⟩
    intro i hi
    rw [h6 i hi]
    split_ifs <;> first
      | rfl
      | (congr 1; omega)
      | omega
  · have hBne : (⟨B, StatusEnum.Empty, bf⟩ : CacheState).addr ≠ address := by
      show B ≠ address
      omega
    have hred : setDataHead P memDev ⟨B, StatusEnum.Empty, bf⟩ mE data address
        len tr0 =
        setDataTail P memDev
          ⟨B, StatusEnum.Empty, blit bf 0 (fun i => mE (B + i)) (address % P)⟩
          mE data address len (tr0 ++ [Ev.readE B (address % P)]) := by
      unfold setDataHead
      rw [if_pos ⟨rfl, hBne⟩]
      rfl
    obtain ⟨h1, h2, h3, h4, h5, h6⟩ :=
      setDataTail_ideal P B address len
        (blit bf 0 (fun i => mE (B + i)) (address % P)) mE data
        (tr0 ++ [Ev.readE B (address % P)])
    rw [hred]
    refine ⟨h1, h2, h3, h4, h5, ?_⟩
    intro i hi
    rw [h6 i hi]
    simp only [blit]
    split_ifs <;> first
      | rfl
      | (congr 1; omega)
      | omega

/-- The composite view presented by a dirty slot whose buffer is backing
bytes outside `[a, a+d)` and caller bytes inside it: precisely the device
map overlaid with the caller's bytes on `[B+a, B+a+d)`. -/
theorem view_after_fill (P : Nat) (hP : 0 < P) (B a d : Nat)
    (hBmod : B % P = 0) (ha : a < P) (had : a + d ≤ P) (st' : CacheState)
    (mE data : Nat → Nat) (haddr : st'.addr = B)
    (hstat : st'.status = StatusEnum.Dirty)
    (hbuf : ∀ i, i < P → st'.buf i =
      if i < a then mE (B + i)
      else if i < a + d then data (i - a)
      else mE (B + i)) :
    ∀ x, view P st' mE x =
      if B + a ≤ x ∧ x < B + a + d then data (x - (B + a)) else mE x := by
  intro x
  by_cases hpb : pageBase P x = B
  · have hx : B ≤ x ∧ x < B + P := (mem_page_iff P B x hP hBmod).mpr hpb
    have hxm : x % P = x - B := by
      have := sub_pageBase P x
      omega
    have hic : isInCache P st' x = true := by
      simp [isInCache, hpb, haddr, hstat]
    have hlt : x - B < P := by omega
    unfold view
    rw [if_pos hic, hxm, hbuf (x - B) hlt]
    by_cases h1 : x - B < a
    · rw [if_pos h1, if_neg (by omega)]
      congr 1
      omega
    · rw [if_neg h1]
      by_cases h2 : x - B < a + d
      · rw [if_pos h2, if_pos (by omega)]
        congr 1
        omega
      · rw [if_neg h2, if_neg (by omega)]
        congr 1
        omega
  · have hic : isInCache P st' x = false := by
      simp only [isInCache, decide_eq_false_iff_not]
      rintro ⟨-, h2⟩
      rw [haddr] at h2
      exact hpb h2.symm
    have hout : ¬ (B + a ≤ x ∧ x < B + a + d) := by
      intro hr
      have hx : B ≤ x ∧ x < B + P := by omega
      exact hpb ((mem_page_iff P B x hP hBmod).mp hx)
    unfold view
    rw [if_neg (by simp [hic]), if_neg hout]

/-- One `SetData` iteration on the ideal device, under the loop invariant:
it succeeds, consumes between 1 and `len` bytes (at least 1 when any
remain), re-establishes the invariant at the advanced address, and updates
the composite view precisely on the consumed range with the caller's
bytes. -/
theorem setDataStep_ideal (P : Nat) (hP : 0 < P) (st : CacheState)
    (m data : Nat → Nat) (address len : Nat) (cb : Option PreFlushCallback)
    (hInv : Inv P st address) :
    (setDataStep P memDev st m data address len cb).ok = true ∧
    (setDataStep P memDev st m data address len cb).val ≤ len ∧
    (0 < len → 0 < (setDataStep P memDev st m data address len cb).val) ∧
    (len - (setDataStep P memDev st m data address len cb).val ≠ 0 →
      Inv P (setDataStep P memDev st m data address len cb).st
        (address + (setDataStep P memDev st m data address len cb).val)) ∧
    ∀ x, view P (setDataStep P memDev st m data address len cb).st
        (setDataStep P memDev st m data address len cb).dev x =
      if address ≤ x ∧
          x < address + (setDataStep P memDev st m data address len cb).val
        then data (x - address) else view P st m x := by
  by_cases hByp : address % P = 0 ∧ P ≤ len
  · -- aligned full-page branch
    have hstep : setDataStep P memDev st m data address len cb =
        ⟨true, P, st,
          fun x => if address ≤ x ∧ x < address + P then data (x - address)
            else m x,
          [Ev.writeE data address P]⟩ := by
      unfold setDataStep
      rw [if_pos hByp]
      rfl
    rw [hstep]
    dsimp only
    refine ⟨rfl, hByp.2, fun _ => hP, ?_, ?_⟩
    · intro _
      rcases hInv with h0 | ⟨hd, hal, hlt⟩
      · exact Or.inl h0
      · exact Or.inr ⟨hd, hal, by omega⟩
    · intro x
      have hnic : ∀ y, address ≤ y → y < address + P →
          isInCache P st y = false := by
        intro y h1 h2
        rcases hInv with h0 | ⟨hd, hal, hlt⟩
        · simp [isInCache, h0]
        · have hpb : pageBase P y = address :=
            (mem_page_iff P address y hP hByp.1).mp ⟨h1, h2⟩
          simp only [isInCache, decide_eq_false_iff_not]
          rintro ⟨-, h3⟩
          omega
      by_cases hr : address ≤ x ∧ x < address + P
      · have h1 := hnic x hr.1 hr.2
        simp [view, h1, hr]
      · by_cases hc : isInCache P st x = true
        · simp [view, hc, hr]
        · simp [view, hc, hr]
  · -- sub-page branch through the cache buffer
    obtain ⟨hsaok, hsast, hsadev⟩ :=
      setAddress_ideal P hP st m address cb hInv
    have ha : address % P < P := Nat.mod_lt _ hP
    set B := pageBase P address with hB
    have hBmod : B % P = 0 := pageBase_mod P address
    have hBadd : B + address % P = address := pageBase_add_mod P address
    set a := address % P with haDef
    set d := min (P - a) len with hdDef
    have hd_le : d ≤ len := Nat.min_le_right _ _
    have hd_le2 : a + d ≤ P := by
      have : d ≤ P - a := Nat.min_le_left _ _
      omega
    have hstep : setDataStep P memDev st m data address len cb =
        setDataHead P memDev ⟨B, StatusEnum.Empty, st.buf⟩
          (setAddress P memDev st m address cb).dev data address len
          (setAddress P memDev st m address cb).tr := by
      unfold setDataStep
      rw [if_neg hByp, if_neg (by simp [hsaok]), hsast]
    obtain ⟨hh1, hh2, hh3, hh4, hh5, hh6⟩ :=
      setDataHead_ideal P hP address len B hBadd st.buf
        (setAddress P memDev st m address cb).dev data
        (setAddress P memDev st m address cb).tr
    rw [hstep]
    refine ⟨hh1, ?_, ?_, ?_, ?_⟩
    · rw [hh2]
      exact hd_le
    · intro hlen
      rw [hh2]
      omega
    · intro hne
      rw [hh2] at hne ⊢
      refine Or.inr ⟨hh5, ?_, ?_⟩
      · rw [hh4]
        exact hBmod
      · rw [hh4]
        omega
    · intro x
      rw [hh3]
      have hv := view_after_fill P hP B a d hBmod ha hd_le2
        (setDataHead P memDev ⟨B, StatusEnum.Empty, st.buf⟩
          (setAddress P memDev st m address cb).dev data address len
          (setAddress P memDev st m address cb).tr).st
        (setAddress P memDev st m address cb).dev data hh4 hh5 hh6 x
      rw [hv, hh2]
      by_cases hr : address ≤ x ∧ x < address + d
      · rw [if_pos (show B + a ≤ x ∧ x < B + a + d by omega), if_pos hr]
        congr 1
        omega
      · rw [if_neg (show ¬ (B + a ≤ x ∧ x < B + a + d) by omega), if_neg hr]
        exact hsadev x

/-- The `SetData` loop on the ideal device: given the loop invariant and
enough fuel it succeeds, and afterwards the composite cache/backing view
equals the old view overlaid with the request bytes on the written range. -/
theorem setDataAux_view (P : Nat) (hP : 0 < P) (cb : Option PreFlushCallback) :
    ∀ fuel (st : CacheState) (m data : Nat → Nat) (address len : Nat),
      len < fuel → Inv P st address →
      (SetDataAux P memDev fuel st m data address len cb).ok = true ∧
      ∀ x, view P (SetDataAux P memDev fuel st m data address len cb).st
          (SetDataAux P memDev fuel st m data address len cb).dev x =
        if address ≤ x ∧ x < address + len then data (x - address)
        else view P st m x := by
  intro fuel
  induction fuel with
  | zero => intro st m data address len h _; omega
  | succ fuel ih =>
      intro st m data address len hlen hInv
      obtain ⟨hok, hle, hpos, hinv, hview⟩ :=
        setDataStep_ideal P hP st m data address len cb hInv
      set s := setDataStep P memDev st m data address len cb with hs
      by_cases hend : len - s.val = 0
      · have hvl : s.val = len := by omega
        simp only [SetDataAux]
        rw [← hs, if_neg (by simp [hok]), if_pos hend]
        dsimp only
        refine ⟨rfl, ?_⟩
        intro x
        rw [hview x, hvl]
      · have hpos' : 0 < s.val := hpos (by omega)
        have hrec := ih s.st s.dev (fun i => data (i + s.val))
          (address + s.val) (len - s.val) (by omega) (hinv hend)
        simp only [SetDataAux]
        rw [← hs, if_neg (by simp [hok]), if_neg hend]
        dsimp only
        refine ⟨hrec.1, ?_⟩
        intro x
        rw [hrec.2 x]
        by_cases h1 : address + s.val ≤ x ∧
            x < address + s.val + (len - s.val)
        · rw [if_pos h1, if_pos (show address ≤ x ∧ x < address + len by omega)]
          show data ((x - (address + s.val)) + s.val) = data (x - address)
          congr 1
          omega
        · rw [if_neg h1, hview x]
          by_cases h2 : address ≤ x ∧ x < address + s.val
          · rw [if_pos h2, if_pos (show address ≤ x ∧ x < address + len by omega)]
          · rw [if_neg h2,
              if_neg (show ¬ (address ≤ x ∧ x < address + len) by omega)]

/-- C1: cache write-then-read coherence.  Starting from an empty slot on
the ideal backing store, `SetData(data, address, len)` succeeds, a
subsequent `GetData` over `[address, address+len)` returns exactly the
written bytes, and `GetData` of any other address — in particular any
unmodified offset within the touched pages — returns the byte the backing
store held there before the write. -/
theorem claim_C1_cache_coherence (P : Nat) (hP : 0 < P) (st : CacheState)
    (m data : Nat → Nat) (address len : Nat)
    (h0 : st.status = StatusEnum.Empty) :
    (SetData P memDev st m data address len none).ok = true ∧
    (GetData P memDev (SetData P memDev st m data address len none).st
        (SetData P memDev st m data address len none).dev address len).ok =
      true ∧
    (GetData P memDev (SetData P memDev st m data address len none).st
        (SetData P memDev st m data address len none).dev address len).val =
      (List.range len).map data ∧
    ∀ x, x < address ∨ address + len ≤ x →
      (GetData P memDev (SetData P memDev st m data address len none).st
          (SetData P memDev st m data address len none).dev x 1).val =
        [m x] := by
  unfold SetData GetData
  obtain ⟨hok, hview⟩ :=
    setDataAux_view P hP none (len + 1) st m data address len (by omega)
      (Or.inl h0)
  have hget := getDataAux_spec P hP (len + 1)
    (SetDataAux P memDev (len + 1) st m data address len none).st
    (SetDataAux P memDev (len + 1) st m data address len none).dev
    address len (by omega)
  refine ⟨hok, hget.1, ?_, ?_⟩
  · rw [hget.2.1]
    apply List.map_congr_left
    intro i hi
    have hi' : i < len := List.mem_range.mp hi
    rw [hview (address + i), if_pos (by omega)]
    congr 1
    omega
  · intro x hx
    have hget1 := getDataAux_spec P hP 2
      (SetDataAux P memDev (len + 1) st m data address len none).st
      (SetDataAux P memDev (len + 1) st m data address len none).dev
      x 1 (by omega)
    have hone : ∀ g : Nat → Nat,
        (List.range 1).map (fun i => g (x + i)) = [g x] := by
      intro g
      rfl
    rw [hget1.2.1,
      hone (view P (SetDataAux P memDev (len + 1) st m data address len
        none).st
        (SetDataAux P memDev (len + 1) st m data address len none).dev),
      hview x, if_neg (by omega)]
    unfold view
    rw [if_neg (by simp [isInCache, h0])]

/-- Witness for C1: page size 4, empty slot, backing byte map `100 + x`,
payload bytes `10..15` written at address 2 (spanning pages 0 and 1, the
second page going through the aligned full-page bypass); reading back
yields the payload, and address 0 still reads the old backing byte 100. -/
theorem claim_C1_witness :
    (SetData 4 memDev emptySlot sampleMem sampleData 2 6 none).ok = true ∧
    (GetData 4 memDev (SetData 4 memDev emptySlot sampleMem sampleData 2 6
        none).st
      (SetData 4 memDev emptySlot sampleMem sampleData 2 6 none).dev 2 6).val =
      [10, 11, 12, 13, 14, 15] ∧
    (GetData 4 memDev (SetData 4 memDev emptySlot sampleMem sampleData 2 6
        none).st
      (SetData 4 memDev emptySlot sampleMem sampleData 2 6 none).dev 0 1).val =
      [100] := by
  have h := claim_C1_cache_coherence 4 (by decide) emptySlot sampleMem
    sampleData 2 6 rfl
  refine ⟨h.1, h.2.2.1.trans (by decide), (h.2.2.2 0 (Or.inl (by decide))).trans
    (by decide)⟩

end CacheCoherence

end CortexM
